import Mathlib

/-!
Verification of `scripts/make-logo-transparent.py` (grafana/nanogit).

The script loads an image, converts it to RGBA, walks the pixel grid with
two nested loops, sets the alpha channel of every near-white pixel to 0,
and writes the buffer back out as a PNG.  We embed the pixel buffer as a
list of rows of RGBA pixels and the nested loops as folds over
`List.range`, mirroring `for y in range(height): for x in range(width)`.
-/

set_option autoImplicit false

namespace MakeLogoTransparent

/-- One RGBA pixel; each channel is an 8-bit value held in a `Nat`. -/
structure RGBA where
  r : Nat
  g : Nat
  b : Nat
  a : Nat
deriving DecidableEq, Repr

/-- Default pixel used to totalise out-of-range reads of the buffer. -/
def defaultPixel : RGBA := ⟨0, 0, 0, 0⟩

/-- A pixel of the source file before conversion: either an RGB pixel
(no alpha channel in the source format) or an RGBA pixel. -/
inductive SrcPixel where
  | rgb (r g b : Nat)
  | rgba (r g b a : Nat)
deriving DecidableEq, Repr

/-- Modelled from the spec: `Image.open(...).convert('RGBA')` ensures the
pixel format includes an alpha channel; "if the source format lacks one,
synthesize alpha = 255 for every pixel", otherwise the pixel is kept. -/
def SrcPixel.toRGBA : SrcPixel → RGBA
  | .rgb r g b => ⟨r, g, b, 255⟩
  | .rgba r g b a => ⟨r, g, b, a⟩

/-- The in-memory RGBA image: `width`, `height` from `img.size`, and the
pixel buffer as a list of rows (row `y`, column `x`, i.e. `pixels[x, y]`). -/
structure Image where
  width : Nat
  height : Nat
  rows : List (List RGBA)
deriving DecidableEq, Repr

/-- Well-formedness of the buffer: there are `height` rows and every row
has `width` pixels.  True of every buffer `PIL` hands to the script. -/
def Image.WF (img : Image) : Prop :=
  img.rows.length = img.height ∧ ∀ row ∈ img.rows, row.length = img.width

instance (img : Image) : Decidable img.WF := by
  unfold Image.WF
  infer_instance

/-- `pixels[x, y]`: read of one pixel, totalised with `defaultPixel`. -/
def Image.pixel (img : Image) (x y : Nat) : RGBA :=
  (img.rows.getD y []).getD x defaultPixel

/-- A source image before the RGBA conversion. -/
structure SrcImage where
  width : Nat
  height : Nat
  rows : List (List SrcPixel)
deriving DecidableEq, Repr

/-- Well-formedness of a source image, as for `Image.WF`. -/
def SrcImage.WF (img : SrcImage) : Prop :=
  img.rows.length = img.height ∧ ∀ row ∈ img.rows, row.length = img.width

instance (img : SrcImage) : Decidable img.WF := by
  unfold SrcImage.WF
  infer_instance

/-- Read of one source pixel, totalised with an all-zero RGB pixel. -/
def SrcImage.srcPixel (img : SrcImage) (x y : Nat) : SrcPixel :=
  (img.rows.getD y []).getD x (.rgb 0 0 0)

/-- Modelled from the spec: `img = Image.open(input_path).convert('RGBA')`
applied to an already decoded source image (step 2 of the contract). -/
def SrcImage.convertRGBA (img : SrcImage) : Image :=
  ⟨img.width, img.height, img.rows.map (List.map SrcPixel.toRGBA)⟩

/-- Body of the inner loop (source lines 24-28): read `r, g, b, a` at
`pixels[x, y]`; if `r >= threshold and g >= threshold and b >= threshold`,
write `(r, g, b, 0)` back at `pixels[x, y]`, else write nothing. -/
def pixelStep (threshold : Nat) (row : List RGBA) (x : Nat) : List RGBA :=
  let p := row.getD x defaultPixel
  if threshold ≤ p.r ∧ threshold ≤ p.g ∧ threshold ≤ p.b then
    row.set x ⟨p.r, p.g, p.b, 0⟩
  else
    row

/-- The inner loop `for x in range(width)` over one row of the buffer. -/
def rowLoop (threshold width : Nat) (row : List RGBA) : List RGBA :=
  (List.range width).foldl (pixelStep threshold) row

/-- The whole pixel pass of `make_transparent` (source lines 22-28): the
outer loop `for y in range(height)` running the inner loop on row `y`.
The image dimensions are untouched; only the buffer is rewritten. -/
def make_transparent (threshold : Nat) (img : Image) : Image :=
  { img with
    rows := (List.range img.height).foldl
      (fun rows y => rows.set y (rowLoop threshold img.width (rows.getD y []))) img.rows }

/-- The per-pixel transform the spec describes: a pure function of one
pixel and the threshold. -/
def transformPixel (threshold : Nat) (p : RGBA) : RGBA :=
  if threshold ≤ p.r ∧ threshold ≤ p.g ∧ threshold ≤ p.b then ⟨p.r, p.g, p.b, 0⟩ else p

/-- The order-independent per-pixel map over the grid, written from the
spec's words, to be compared with the loop implementation. -/
def mapImage (threshold : Nat) (img : Image) : Image :=
  { img with rows := img.rows.map (List.map (transformPixel threshold)) }

/-- Contents of one file: either bytes that do not decode as an image, or
a decodable image. -/
inductive FileData where
  | raw
  | image (img : SrcImage)
deriving DecidableEq

/-- The two load-time failures named by the spec. -/
inductive LoadErr where
  | fileErr
  | decodeErr
deriving DecidableEq, Repr

/-- A file system: a map from paths to contents (`none` = no such file). -/
def FS : Type := String → Option FileData

/-- Modelled from the spec: `Image.open(input_path)` fails with a
FileError if the path does not exist and a DecodeError if the contents
are not a decodable image; otherwise it yields the decoded image. -/
def loadImage (fs : FS) (path : String) : Except LoadErr SrcImage :=
  match fs path with
  | none => .error .fileErr
  | some .raw => .error .decodeErr
  | some (.image img) => .ok img

/-- The saved RGBA buffer viewed again as a file image (the written PNG). -/
def Image.toSrc (img : Image) : SrcImage :=
  ⟨img.width, img.height, img.rows.map (List.map (fun p => .rgba p.r p.g p.b p.a))⟩

/-- Modelled from the spec: one run of `make_transparent(input_path,
output_path, threshold)` over a file system — load (which may fail),
convert to RGBA, run the pixel pass, save to the output path.  A load
failure propagates uncaught and nothing is written. -/
def runScript (fs : FS) (inputPath outputPath : String) (threshold : Nat) :
    FS × Option LoadErr :=
  match loadImage fs inputPath with
  | .error e => (fs, some e)
  | .ok src =>
    (fun p =>
      if p = outputPath then
        some (.image (make_transparent threshold src.convertRGBA).toSrc)
      else fs p,
     none)

/-- An empty file system. -/
def emptyFS : FS := fun _ => none

/-- The 2×2 source image of the spec's end-to-end example. -/
def testSrc : SrcImage :=
  ⟨2, 2, [[.rgb 255 255 255, .rgb 0 0 0], [.rgb 240 240 240, .rgb 239 239 239]]⟩

/-- The same 2×2 image after the RGBA conversion, used as a test buffer. -/
def testImg : Image :=
  ⟨2, 2, [[⟨255, 255, 255, 255⟩, ⟨0, 0, 0, 255⟩],
          [⟨240, 240, 240, 255⟩, ⟨239, 239, 239, 255⟩]]⟩

/-- A 1×1 image whose only pixel is dark but already fully transparent. -/
def darkTransparent : Image := ⟨1, 1, [[⟨10, 10, 10, 0⟩]]⟩

theorem set_getD_self {α : Type} : ∀ (l : List α) (x : Nat) (d : α),
    l.set x (l.getD x d) = l
  | [], _, _ => rfl
  | _ :: _, 0, _ => rfl
  | a :: tl, x + 1, d => by
    simp only [List.getD_cons_succ, List.set_cons_succ]
    rw [set_getD_self tl x d]

theorem getD_append_cons {α : Type} (a d : α) (tl : List α) :
    ∀ pre : List α, (pre ++ a :: tl).getD pre.length d = a
  | [] => rfl
  | p :: pre => by
    simp only [List.cons_append, List.length_cons, List.getD_cons_succ]
    exact getD_append_cons a d tl pre

theorem set_append_cons {α : Type} (a x : α) (tl : List α) :
    ∀ pre : List α, (pre ++ a :: tl).set pre.length x = pre ++ x :: tl
  | [] => rfl
  | p :: pre => by
    simp only [List.cons_append, List.length_cons, List.set_cons_succ]
    rw [set_append_cons a x tl pre]

/-- The loop body writes exactly the per-pixel transform back to the
buffer: the conditional write is a `set` of `transformPixel`. -/
theorem pixelStep_eq (t : Nat) :
    pixelStep t = fun row x => row.set x (transformPixel t (row.getD x defaultPixel)) := by
  funext row x
  simp only [pixelStep, transformPixel]
  split_ifs with h
  · rfl
  · exact (set_getD_self row x defaultPixel).symm

/-- Folding index-wise writes of `f` over a whole list rewrites it to its
map, as long as every index is written exactly once in order. -/
theorem foldl_set_range {α : Type} (f : α → α) (d : α) :
    ∀ (l pre : List α) (k : Nat), k = pre.length →
      (List.range l.length).foldl
          (fun b i => b.set (k + i) (f (b.getD (k + i) d))) (pre ++ l)
        = pre ++ l.map f := by
  intro l
  induction l with
  | nil => intro pre k hk; simp
  | cons a tl ih =>
    intro pre k hk
    rw [List.length_cons, List.range_succ_eq_map, List.foldl_cons]
    have step1 : (pre ++ a :: tl).set (k + 0) (f ((pre ++ a :: tl).getD (k + 0) d))
        = pre ++ f a :: tl := by
      rw [Nat.add_zero, hk, getD_append_cons, set_append_cons]
    rw [step1, List.foldl_map]
    have hk' : k + 1 = (pre ++ [f a]).length := by
      simp [List.length_append, hk]
    have := ih (pre ++ [f a]) (k + 1) hk'
    simp only [List.append_assoc, List.singleton_append] at this
    simp only [Nat.add_succ, Nat.succ_add] at this ⊢
    simpa using this

theorem foldl_set_range_zero {α : Type} (f : α → α) (d : α) (l : List α) :
    (List.range l.length).foldl (fun b i => b.set i (f (b.getD i d))) l = l.map f := by
  have := foldl_set_range f d l [] 0 rfl
  simpa using this

/-- The inner loop over a full row maps the per-pixel transform. -/
theorem rowLoop_eq_map (t : Nat) (row : List RGBA) :
    rowLoop t row.length row = row.map (transformPixel t) := by
  rw [rowLoop, pixelStep_eq]
  exact foldl_set_range_zero (transformPixel t) defaultPixel row

/-- Refinement: on a well-formed buffer the nested loops of the script
compute exactly the order-independent per-pixel map. -/
theorem make_transparent_eq_map (t : Nat) (img : Image) (h : img.WF) :
    make_transparent t img = mapImage t img := by
  obtain ⟨h1, h2⟩ := h
  unfold make_transparent mapImage
  congr 1
  rw [← h1, foldl_set_range_zero (rowLoop t img.width) []]
  exact List.map_congr_left fun row hrow => by
    rw [← h2 row hrow]; exact rowLoop_eq_map t row

theorem getD_eq_getElem_of_lt {α : Type} (l : List α) (d : α) {n : Nat}
    (h : n < l.length) : l.getD n d = l[n] := by
  rw [List.getD_eq_getElem?_getD, List.getElem?_eq_getElem h, Option.getD_some]

theorem getD_map_of_lt {α β : Type} (f : α → β) (l : List α) (d : β) (e : α)
    {n : Nat} (h : n < l.length) : (l.map f).getD n d = f (l.getD n e) := by
  rw [List.getD_eq_getElem?_getD, List.getElem?_map, List.getElem?_eq_getElem h,
    Option.map_some', Option.getD_some, getD_eq_getElem_of_lt _ _ h]

/-- In a well-formed image, in-grid coordinates are in range of the rows
list and of the selected row. -/
theorem bounds_of_WF (img : Image) (h : img.WF) {x y : Nat}
    (hy : y < img.height) (hx : x < img.width) :
    y < img.rows.length ∧ x < (img.rows.getD y []).length := by
  obtain ⟨h1, h2⟩ := h
  have hy' : y < img.rows.length := h1 ▸ hy
  have hmem : img.rows.getD y [] ∈ img.rows := by
    rw [getD_eq_getElem_of_lt _ _ hy']
    exact List.getElem_mem hy'
  exact ⟨hy', by rw [h2 _ hmem]; exact hx⟩

theorem srcBounds_of_WF (img : SrcImage) (h : img.WF) {x y : Nat}
    (hy : y < img.height) (hx : x < img.width) :
    y < img.rows.length ∧ x < (img.rows.getD y []).length := by
  obtain ⟨h1, h2⟩ := h
  have hy' : y < img.rows.length := h1 ▸ hy
  have hmem : img.rows.getD y [] ∈ img.rows := by
    rw [getD_eq_getElem_of_lt _ _ hy']
    exact List.getElem_mem hy'
  exact ⟨hy', by rw [h2 _ hmem]; exact hx⟩

theorem pixel_mapImage (t : Nat) (img : Image) (x y : Nat)
    (hy : y < img.rows.length) (hx : x < (img.rows.getD y []).length) :
    (mapImage t img).pixel x y = transformPixel t (img.pixel x y) := by
  unfold mapImage Image.pixel
  simp only
  rw [getD_map_of_lt (List.map (transformPixel t)) img.rows [] [] hy,
    getD_map_of_lt (transformPixel t) _ defaultPixel defaultPixel hx]

theorem pixel_convertRGBA (img : SrcImage) (x y : Nat)
    (hy : y < img.rows.length) (hx : x < (img.rows.getD y []).length) :
    img.convertRGBA.pixel x y = (img.srcPixel x y).toRGBA := by
  unfold SrcImage.convertRGBA Image.pixel SrcImage.srcPixel
  simp only
  rw [getD_map_of_lt (List.map SrcPixel.toRGBA) img.rows [] [] hy,
    getD_map_of_lt SrcPixel.toRGBA _ defaultPixel (.rgb 0 0 0) hx]

theorem WF_mapImage (t : Nat) (img : Image) (h : img.WF) : (mapImage t img).WF := by
  obtain ⟨h1, h2⟩ := h
  refine ⟨by simpa [mapImage] using h1, ?_⟩
  intro row hrow
  simp only [mapImage, List.mem_map] at hrow
  obtain ⟨row0, hrow0, rfl⟩ := hrow
  simpa using h2 row0 hrow0

theorem WF_convertRGBA (img : SrcImage) (h : img.WF) : img.convertRGBA.WF := by
  obtain ⟨h1, h2⟩ := h
  refine ⟨by simpa [SrcImage.convertRGBA] using h1, ?_⟩
  intro row hrow
  simp only [SrcImage.convertRGBA, List.mem_map] at hrow
  obtain ⟨row0, hrow0, rfl⟩ := hrow
  simpa using h2 row0 hrow0

theorem transformPixel_idem (t : Nat) (p : RGBA) :
    transformPixel t (transformPixel t p) = transformPixel t p := by
  unfold transformPixel
  by_cases h : t ≤ p.r ∧ t ≤ p.g ∧ t ≤ p.b
  · simp [h]
  · simp [h]

/-- The per-pixel view of the script on a well-formed buffer. -/
theorem pixel_make_transparent (t : Nat) (img : Image) (x y : Nat)
    (h : img.WF) (hy : y < img.height) (hx : x < img.width) :
    (make_transparent t img).pixel x y = transformPixel t (img.pixel x y) := by
  obtain ⟨hy', hx'⟩ := bounds_of_WF img h hy hx
  rw [make_transparent_eq_map t img h]
  exact pixel_mapImage t img x y hy' hx'

theorem mapImage_idem (t : Nat) (img : Image) :
    mapImage t (mapImage t img) = mapImage t img := by
  unfold mapImage
  simp only [List.map_map]
  congr 1
  refine List.map_congr_left fun row _ => ?_
  simp only [Function.comp_def, List.map_map]
  exact List.map_congr_left fun p _ => transformPixel_idem t p

end MakeLogoTransparent
namespace MakeLogoTransparent

/-- C1: every pixel whose red, green and blue channels are all at least
the threshold (inclusive) gets alpha 0 in the output, with its red, green
and blue channels unchanged. -/
theorem white_pixel_made_transparent (t : Nat) (img : Image) (x y : Nat)
    (h : img.WF) (hy : y < img.height) (hx : x < img.width)
    (hr : t ≤ (img.pixel x y).r) (hg : t ≤ (img.pixel x y).g)
    (hb : t ≤ (img.pixel x y).b) :
    (make_transparent t img).pixel x y =
      ⟨(img.pixel x y).r, (img.pixel x y).g, (img.pixel x y).b, 0⟩ := by
  rw [pixel_make_transparent t img x y h hy hx, transformPixel, if_pos ⟨hr, hg, hb⟩]

theorem white_pixel_made_transparent_witness :
    (make_transparent 240 testImg).pixel 0 0 = ⟨255, 255, 255, 0⟩ :=
  white_pixel_made_transparent 240 testImg 0 0 (by decide) (by decide) (by decide)
    (by decide) (by decide) (by decide)

/-- C2: every pixel with at least one of red, green, blue strictly below
the threshold is output identical to the input pixel in all four channels,
with alpha 255 when the source format had no alpha channel. -/
theorem nonwhite_pixel_unchanged (t : Nat) (src : SrcImage) (x y : Nat)
    (h : src.WF) (hy : y < src.height) (hx : x < src.width)
    (hlt : (src.srcPixel x y).toRGBA.r < t ∨ (src.srcPixel x y).toRGBA.g < t ∨
      (src.srcPixel x y).toRGBA.b < t) :
    (make_transparent t src.convertRGBA).pixel x y = (src.srcPixel x y).toRGBA := by
  obtain ⟨hy', hx'⟩ := srcBounds_of_WF src h hy hx
  rw [pixel_make_transparent t _ x y (WF_convertRGBA src h) hy hx,
    pixel_convertRGBA src x y hy' hx', transformPixel, if_neg]
  rintro ⟨h1, h2, h3⟩
  rcases hlt with hc | hc | hc <;> omega

theorem nonwhite_pixel_unchanged_witness :
    (make_transparent 240 testSrc.convertRGBA).pixel 1 0 = ⟨0, 0, 0, 255⟩ :=
  nonwhite_pixel_unchanged 240 testSrc 1 0 (by decide) (by decide) (by decide)
    (by decide)

/-- C3: the output image has exactly the input's width and height, and
every in-grid pixel keeps its red, green and blue channels — only alpha
values change. -/
theorem dimensions_preserved (t : Nat) (img : Image) (h : img.WF) :
    (make_transparent t img).width = img.width ∧
    (make_transparent t img).height = img.height ∧
    ∀ x y, y < img.height → x < img.width →
      ((make_transparent t img).pixel x y).r = (img.pixel x y).r ∧
      ((make_transparent t img).pixel x y).g = (img.pixel x y).g ∧
      ((make_transparent t img).pixel x y).b = (img.pixel x y).b := by
  refine ⟨rfl, rfl, ?_⟩
  intro x y hy hx
  rw [pixel_make_transparent t img x y h hy hx]
  unfold transformPixel
  split_ifs <;> exact ⟨rfl, rfl, rfl⟩

theorem dimensions_preserved_witness :
    ((make_transparent 240 testImg).pixel 0 1).r = (testImg.pixel 0 1).r ∧
    ((make_transparent 240 testImg).pixel 0 1).g = (testImg.pixel 0 1).g ∧
    ((make_transparent 240 testImg).pixel 0 1).b = (testImg.pixel 0 1).b :=
  (dimensions_preserved 240 testImg (by decide)).2.2 0 1 (by decide) (by decide)

/-- C4: the filter is idempotent — applying the pixel pass to its own
output with the same threshold yields the same buffer as applying it
once. -/
theorem filter_idempotent (t : Nat) (img : Image) (h : img.WF) :
    make_transparent t (make_transparent t img) = make_transparent t img := by
  have e1 := make_transparent_eq_map t img h
  have hwf : (mapImage t img).WF := WF_mapImage t img h
  rw [e1, make_transparent_eq_map t (mapImage t img) hwf, mapImage_idem]

theorem filter_idempotent_witness :
    make_transparent 240 (make_transparent 240 testImg) = make_transparent 240 testImg :=
  filter_idempotent 240 testImg (by decide)

/-- C5: the traversal order is irrelevant — on a well-formed buffer the
nested loops equal the order-independent per-pixel map of
`transformPixel` over the grid. -/
theorem traversal_order_irrelevant (t : Nat) (img : Image) (h : img.WF) :
    make_transparent t img = mapImage t img :=
  make_transparent_eq_map t img h

theorem traversal_order_irrelevant_witness :
    make_transparent 240 testImg = mapImage 240 testImg :=
  traversal_order_irrelevant 240 testImg (by decide)

/-- C6: the spec's end-to-end example — a 2×2 image with RGB pixels
(255,255,255), (0,0,0), (240,240,240), (239,239,239) at threshold 240
produces alphas 0, 255, 0, 255 with all RGB channels unchanged. -/
theorem end_to_end_example :
    make_transparent 240 testSrc.convertRGBA =
      ⟨2, 2, [[⟨255, 255, 255, 0⟩, ⟨0, 0, 0, 255⟩],
              [⟨240, 240, 240, 0⟩, ⟨239, 239, 239, 255⟩]]⟩ := by
  decide

/-- C7: the RGBA conversion before the pixel pass gives every pixel of an
alpha-less source alpha 255 and preserves the alpha of sources that
already have one (red, green, blue are kept in both cases). -/
theorem convert_synthesizes_alpha (src : SrcImage) (x y : Nat) (h : src.WF)
    (hy : y < src.height) (hx : x < src.width) :
    src.convertRGBA.pixel x y = (src.srcPixel x y).toRGBA ∧
    (∀ r g b, src.srcPixel x y = .rgb r g b →
      src.convertRGBA.pixel x y = ⟨r, g, b, 255⟩) ∧
    (∀ r g b a, src.srcPixel x y = .rgba r g b a →
      src.convertRGBA.pixel x y = ⟨r, g, b, a⟩) := by
  obtain ⟨hy', hx'⟩ := srcBounds_of_WF src h hy hx
  have e := pixel_convertRGBA src x y hy' hx'
  refine ⟨e, ?_, ?_⟩
  · intro r g b hsrc
    rw [e, hsrc, SrcPixel.toRGBA]
  · intro r g b a hsrc
    rw [e, hsrc, SrcPixel.toRGBA]

theorem convert_synthesizes_alpha_witness :
    testSrc.convertRGBA.pixel 0 0 = ⟨255, 255, 255, 255⟩ :=
  (convert_synthesizes_alpha testSrc 0 0 (by decide) (by decide) (by decide)).2.1
    255 255 255 rfl

/-- C8: when the input path is missing the run fails with the file error,
when it holds undecodable bytes it fails with the decode error, and in
both cases the file system — in particular the output path — is left
unchanged. -/
theorem load_failure_writes_nothing (fs : FS) (inputPath outputPath : String)
    (t : Nat) :
    (fs inputPath = none →
      runScript fs inputPath outputPath t = (fs, some .fileErr)) ∧
    (fs inputPath = some .raw →
      runScript fs inputPath outputPath t = (fs, some .decodeErr)) := by
  constructor <;> intro h <;> simp [runScript, loadImage, h]

theorem load_failure_writes_nothing_witness :
    runScript emptyFS "logo-in.png" "logo-out.png" 240 = (emptyFS, some .fileErr) :=
  (load_failure_writes_nothing emptyFS "logo-in.png" "logo-out.png" 240).1 rfl

/-- C9: the output alpha of every pixel is at most its input alpha, where
the input alpha counts as 255 when the source format had no alpha
channel — the filter never makes a pixel more opaque. -/
theorem alpha_never_increases (t : Nat) (src : SrcImage) (x y : Nat)
    (h : src.WF) (hy : y < src.height) (hx : x < src.width) :
    ((make_transparent t src.convertRGBA).pixel x y).a ≤
      ((src.srcPixel x y).toRGBA).a := by
  obtain ⟨hy', hx'⟩ := srcBounds_of_WF src h hy hx
  rw [pixel_make_transparent t _ x y (WF_convertRGBA src h) hy hx,
    pixel_convertRGBA src x y hy' hx']
  unfold transformPixel
  split_ifs
  · exact Nat.zero_le _
  · exact le_refl _

theorem alpha_never_increases_witness :
    ((make_transparent 240 testSrc.convertRGBA).pixel 0 0).a ≤
      ((testSrc.srcPixel 0 0).toRGBA).a :=
  alpha_never_increases 240 testSrc 0 0 (by decide) (by decide) (by decide)

/-- C10: a pixel's output alpha is 0 exactly when its red, green and blue
are all at least the threshold or its input alpha was already 0. -/
theorem alpha_zero_characterization (t : Nat) (img : Image) (x y : Nat)
    (h : img.WF) (hy : y < img.height) (hx : x < img.width) :
    ((make_transparent t img).pixel x y).a = 0 ↔
      (t ≤ (img.pixel x y).r ∧ t ≤ (img.pixel x y).g ∧ t ≤ (img.pixel x y).b) ∨
      (img.pixel x y).a = 0 := by
  rw [pixel_make_transparent t img x y h hy hx]
  unfold transformPixel
  split_ifs with hc
  · simp [hc]
  · simp [hc]

theorem alpha_zero_characterization_witness :
    ((make_transparent 240 darkTransparent).pixel 0 0).a = 0 ↔
      (240 ≤ (darkTransparent.pixel 0 0).r ∧ 240 ≤ (darkTransparent.pixel 0 0).g ∧
        240 ≤ (darkTransparent.pixel 0 0).b) ∨
      (darkTransparent.pixel 0 0).a = 0 :=
  alpha_zero_characterization 240 darkTransparent 0 0 (by decide) (by decide) (by decide)

end MakeLogoTransparent
